import Mathlib

/-!
Verification of the torchrec embedding-sharding planner specification.

The planning engine itself (topology, storage reservation, enumerator,
partitioner, proposal search, error classification) is exercised by the
repository only through its test suite, so the engine is modelled here from
the specification's component contracts (sections 2-4, 7 and 8 of the spec)
and calibrated, as the spec instructs, against the literal scenarios of
section 8.  The MSE / RMSE metric helpers are embedded directly from
`torchrec/metrics/mse.py`.
-/

namespace TorchrecModel

/-- Modelled from the spec: the sharding types the scenarios exercise
(row-wise splits a table's rows across devices, table-wise places the whole
table on one device). -/
inductive ShardingType
  | row_wise
  | table_wise
deriving DecidableEq, Repr, Inhabited

/-- Modelled from the spec: compute kernels (implementation variants); the
fused dense kernel keeps the whole table in the fast tier, the caching kernel
keeps a capped cache in the fast tier and the table in the slow tier. -/
inductive ComputeKernel
  | fused
  | fused_uvm_caching
deriving DecidableEq, Repr, Inhabited

/-- Cache eviction algorithm carried opaquely through constraints. -/
inductive CacheAlgorithm
  | LRU
  | LFU
deriving DecidableEq, Repr

/-- Element precision carried opaquely through constraints. -/
inductive DataType
  | FP32
  | FP16
deriving DecidableEq, Repr

/-- Bounds-check mode carried opaquely through constraints. -/
inductive BoundsCheckMode
  | NONE
  | WARNING
  | FATAL
deriving DecidableEq, Repr

/-- Cache parameters attached to a table's constraints; every field is
optional, mirroring `CacheParams` as the planner tests use it. -/
structure CacheParams where
  algorithm : Option CacheAlgorithm := none
  load_factor : Option Nat := none
  reserved_memory : Option Nat := none
  precision : Option DataType := none
deriving DecidableEq, Repr

/-- Modelled from the spec: per-table `ParameterConstraints` - allowed
sharding types and kernels plus the constraint fields the planner propagates
unchanged into the plan. -/
structure ParameterConstraints where
  sharding_types : Option (List ShardingType) := none
  compute_kernels : Option (List ComputeKernel) := none
  cache_params : Option CacheParams := none
  enforce_hbm : Option Bool := none
  stochastic_rounding : Option Bool := none
  bounds_check_mode : Option BoundsCheckMode := none
  is_weighted : Option Bool := none
  feature_names : Option (List String) := none
deriving DecidableEq, Repr

/-- Modelled from the spec: an embedding-table configuration (unique name,
row count, embedding dimension, feature names). -/
structure TableConfig where
  name : String
  num_embeddings : Nat
  embedding_dim : Nat
  feature_names : List String := []
deriving DecidableEq, Repr

/-- Modelled from the spec: the device topology - device count and the
per-device fast-tier (HBM) and slow-tier (DDR) budgets, plus the local group
size used only for configuration hashing. -/
structure Topology where
  world_size : Nat
  local_world_size : Nat
  hbm_cap : Nat
  ddr_cap : Nat
deriving DecidableEq, Repr

/-- Modelled from the spec: the sharder capability interface - the sharding
types and compute kernels a sharder supports for the compute device. -/
structure Sharder where
  sharding_types : List ShardingType
  compute_kernels : List ComputeKernel
deriving DecidableEq, Repr

/-- One shard of a sharding option: its row range plus its storage cost per
tier and its performance-cost contribution. -/
structure ShardRec where
  offset : Nat
  rows : Nat
  hbm : Nat
  ddr : Nat
  perf : Nat
deriving DecidableEq, Repr, Inhabited

/-- Modelled from the spec: a sharding option - a candidate placement
strategy for one table, with its shard geometry, per-shard storage and
performance costs, and the propagated constraint fields. -/
structure ShardingOption where
  name : String
  rows : Nat
  dim : Nat
  sharding_type : ShardingType
  kernel : ComputeKernel
  shards : List ShardRec
  cache_params : Option CacheParams
  enforce_hbm : Option Bool
  stochastic_rounding : Option Bool
  bounds_check_mode : Option BoundsCheckMode
  is_weighted : Option Bool
  feature_names : Option (List String)
deriving DecidableEq, Repr, Inhabited

/-- One placed table of a plan: the chosen sharding option together with the
device rank hosting each of its shards (shard `i` lives on `ranks[i]`). -/
structure PlanEntry where
  opt : ShardingOption
  ranks : List Nat
deriving DecidableEq, Repr, Inhabited

/-- Modelled from the spec: the error taxonomy of the planner. -/
inductive PlannerErrorType
  | STRICT_CONSTRAINTS
  | INSUFFICIENT_STORAGE
  | PARTITION
deriving DecidableEq, Repr

/-- A planner error: its kind together with the number of proposals the
search attempted before failing. -/
structure PlannerError where
  error_type : PlannerErrorType
  num_proposals : Nat
deriving DecidableEq, Repr

/-- Result of a `plan` call: a placement plan (one entry per placed table,
in input-table order) or a planner error. -/
inductive PlanResult
  | ok (entries : List PlanEntry)
  | err (e : PlannerError)
deriving DecidableEq, Repr, Inhabited

/-- Bytes per element (fp32). -/
def elementBytes : Nat := 4

/-- Modelled from the spec: row-wise shard sizes - `num_embeddings` split as
evenly as possible across `w` participating devices, with the remainder
going to the lowest-indexed devices. -/
def evenSplit (n w : Nat) : List Nat :=
  (List.range w).map (fun i => n / w + if i < n % w then 1 else 0)

/-- Build the shard records for a list of shard sizes: offsets are the
running sums of the sizes, and `f` computes (hbm, ddr, perf) from a size. -/
def mkShards (f : Nat → Nat × Nat × Nat) : Nat → List Nat → List ShardRec
  | _, [] => []
  | off, sz :: rest =>
    ⟨off, sz, (f sz).1, (f sz).2.1, (f sz).2.2⟩ :: mkShards f (off + sz) rest

/-- Modelled from the spec: per-shard performance cost - compute time grows
with shard size and batch size, and row-wise sharding adds an all-to-all
communication term while table-wise incurs none between shards. -/
def shardPerf (dim batch sz : Nat) (ty : ShardingType) : Nat :=
  sz * dim * batch + (match ty with
    | .row_wise => batch * dim
    | .table_wise => 0)

/-- Modelled from the spec: per-shard storage per tier - the fused kernel
keeps the full `rows * dim * elementBytes` footprint in the fast tier; the
caching kernel keeps a load-factor fraction in the fast tier and the full
table in the slow tier. -/
def shardCost (dim batch : Nat) (ty : ShardingType) (k : ComputeKernel)
    (sz : Nat) : Nat × Nat × Nat :=
  let bytes := sz * dim * elementBytes
  let p := shardPerf dim batch sz ty
  match k with
  | .fused => (bytes, 0, p)
  | .fused_uvm_caching => (bytes * 20 / 100, bytes, p)

/-- Look up a table's constraints by name. -/
def lookupConstraint (cons : List (String × ParameterConstraints))
    (n : String) : Option ParameterConstraints :=
  List.lookup n cons

/-- Shard sizes for a sharding type: table-wise keeps the whole table in one
shard, row-wise splits the rows evenly across the world. -/
def sizesFor (ty : ShardingType) (n w : Nat) : List Nat :=
  match ty with
  | .table_wise => [n]
  | .row_wise => evenSplit n w

/-- Build the sharding option of table `t` for a (type, kernel) pair; the
constraint fields are propagated unchanged from the table's constraints. -/
def mkOption (topo : Topology) (batch : Nat)
    (cons : List (String × ParameterConstraints)) (t : TableConfig)
    (ty : ShardingType) (k : ComputeKernel) : ShardingOption :=
  let c := lookupConstraint cons t.name
  { name := t.name
    rows := t.num_embeddings
    dim := t.embedding_dim
    sharding_type := ty
    kernel := k
    shards := mkShards (shardCost t.embedding_dim batch ty k) 0
      (sizesFor ty t.num_embeddings topo.world_size)
    cache_params := c.bind (fun pc => pc.cache_params)
    enforce_hbm := c.bind (fun pc => pc.enforce_hbm)
    stochastic_rounding := c.bind (fun pc => pc.stochastic_rounding)
    bounds_check_mode := c.bind (fun pc => pc.bounds_check_mode)
    is_weighted := c.bind (fun pc => pc.is_weighted)
    feature_names := c.bind (fun pc => pc.feature_names) }

/-- Legal sharding types of a table: the sharder-supported types intersected
with the constraint's allowed types, if any. -/
def allowedTypes (s0 : Sharder) (c : Option ParameterConstraints) :
    List ShardingType :=
  s0.sharding_types.filter (fun ty =>
    match c.bind (fun pc => pc.sharding_types) with
    | none => true
    | some a => decide (ty ∈ a))

/-- Legal compute kernels of a table: the sharder-supported kernels
intersected with the constraint's allowed kernels, if any. -/
def allowedKernels (s0 : Sharder) (c : Option ParameterConstraints) :
    List ComputeKernel :=
  s0.compute_kernels.filter (fun k =>
    match c.bind (fun pc => pc.compute_kernels) with
    | none => true
    | some a => decide (k ∈ a))

/-- Modelled from the spec: the enumerator's per-table search space - the
Cartesian product of legal sharding types and legal compute kernels. -/
def enumerateTable (topo : Topology) (batch : Nat) (s0 : Sharder)
    (cons : List (String × ParameterConstraints)) (t : TableConfig) :
    List ShardingOption :=
  (allowedTypes s0 (lookupConstraint cons t.name)).flatMap (fun ty =>
    (allowedKernels s0 (lookupConstraint cons t.name)).map (fun k =>
      mkOption topo batch cons t ty k))

/-- Modelled from the spec: the storage reservation - a percentage of the
dense-path memory estimate (activations sized by batch size times total
feature width) withheld from every device's fast-tier budget. -/
def reservedBytes (pct batch : Nat) (tables : List TableConfig) : Nat :=
  pct * batch * ((tables.map (fun t => t.embedding_dim)).sum) * elementBytes / 100

/-- Per-device effective fast-tier budget: the topology budget minus the
storage reservation; may be negative. -/
def effectiveHbm (topo : Topology) (pct batch : Nat)
    (tables : List TableConfig) : Int :=
  (topo.hbm_cap : Int) - reservedBytes pct batch tables

/-- The effective fast-tier budget of a `plan` call: with no sharders no
table is sharded and nothing is reserved. -/
def effectiveHbmOf (topo : Topology) (pct batch : Nat)
    (tables : List TableConfig) (sharders : List Sharder) : Int :=
  match sharders with
  | [] => (topo.hbm_cap : Int)
  | _ :: _ => effectiveHbm topo pct batch tables

/-- Per-device effective slow-tier budget (the reservation only shrinks the
fast tier). -/
def effectiveDdrOf (topo : Topology) : Int := (topo.ddr_cap : Int)

/-- The device with the most remaining budget, ties broken by the lowest
rank index. -/
def chooseDevice (w : Nat) (rem : Nat → Int) : Nat :=
  (List.range w).foldl (fun best d => if rem best < rem d then d else best) 0

/-- Pointwise update of a per-device budget map. -/
def upd (f : Nat → Int) (k : Nat) (v : Int) : Nat → Int :=
  fun d => if d = k then v else f d

/-- The per-shard quantity `g` of the `i`-th shard of a list (0 past the
end). -/
def contribAt (g : ShardRec → Nat) : List ShardRec → Nat → Nat
  | [], _ => 0
  | s :: _, 0 => g s
  | _ :: ss, i + 1 => contribAt g ss i

/-- Place row-wise shards: shard `i` goes to device `k + i`; each shard must
fit the remaining budget of its device in both tiers. -/
def placeRW : List ShardRec → Nat → (Nat → Int) → (Nat → Int) →
    Option ((Nat → Int) × (Nat → Int))
  | [], _, rH, rD => some (rH, rD)
  | s :: ss, k, rH, rD =>
    if (s.hbm : Int) ≤ rH k ∧ (s.ddr : Int) ≤ rD k then
      placeRW ss (k + 1) (upd rH k (rH k - s.hbm)) (upd rD k (rD k - s.ddr))
    else none

/-- Modelled from the spec: place one sharding option - table-wise goes
whole onto the device with the most remaining fast-tier budget, row-wise
spreads one shard per device; reject the instant a shard cannot fit. -/
def placeOpt (w : Nat) (opt : ShardingOption) (rH rD : Nat → Int) :
    Option (List Nat × (Nat → Int) × (Nat → Int)) :=
  match opt.sharding_type with
  | .table_wise =>
    let dev := chooseDevice w rH
    let bh : Nat := (opt.shards.map (fun s => s.hbm)).sum
    let bd : Nat := (opt.shards.map (fun s => s.ddr)).sum
    if (bh : Int) ≤ rH dev ∧ (bd : Int) ≤ rD dev then
      some (List.replicate opt.shards.length dev,
        upd rH dev (rH dev - bh), upd rD dev (rD dev - bd))
    else none
  | .row_wise =>
    (placeRW opt.shards 0 rH rD).map
      (fun r => (List.range opt.shards.length, r.1, r.2))

/-- Modelled from the spec: the greedy partitioner - place one option per
table in order against the remaining per-device budgets, or report
infeasibility. -/
def partitionOpts (w : Nat) : List ShardingOption → (Nat → Int) →
    (Nat → Int) → Option (List PlanEntry × (Nat → Int) × (Nat → Int))
  | [], rH, rD => some ([], rH, rD)
  | opt :: rest, rH, rD =>
    match placeOpt w opt rH rD with
    | none => none
    | some (rks, rH1, rD1) =>
      match partitionOpts w rest rH1 rD1 with
      | none => none
      | some (es, rH2, rD2) => some (⟨opt, rks⟩ :: es, rH2, rD2)

/-- Contribution of a single placed option to device `d`, measured by the
per-shard quantity `g` (storage per tier, or performance). -/
def rankContrib (g : ShardRec → Nat) (shards : List ShardRec)
    (ranks : List Nat) (d : Nat) : Nat :=
  (List.zipWith (fun s r => if r = d then g s else 0) shards ranks).sum

/-- Contribution of one plan entry to device `d`. -/
def entryOn (g : ShardRec → Nat) (e : PlanEntry) (d : Nat) : Nat :=
  rankContrib g e.opt.shards e.ranks d

/-- Total consumption of a plan on device `d`, measured by `g`. -/
def usedOn (g : ShardRec → Nat) (p : List PlanEntry) (d : Nat) : Nat :=
  (p.map (fun e => entryOn g e d)).sum

/-- Fast-tier storage a plan consumes on device `d`. -/
def usedHbm (p : List PlanEntry) (d : Nat) : Nat := usedOn (fun s => s.hbm) p d

/-- Slow-tier storage a plan consumes on device `d`. -/
def usedDdr (p : List PlanEntry) (d : Nat) : Nat := usedOn (fun s => s.ddr) p d

/-- Performance cost a plan places on device `d`. -/
def devPerf (p : List PlanEntry) (d : Nat) : Nat := usedOn (fun s => s.perf) p d

/-- Modelled from the spec: the score of a feasible candidate - the maximum
per-device performance cost (the critical path across devices). -/
def planScore (w : Nat) (p : List PlanEntry) : Nat :=
  ((List.range w).map (devPerf p)).foldl Nat.max 0

/-- Keep the best-scored candidate; ties keep the earlier one. -/
def selectMinAux (best : List PlanEntry) (bs : Nat) :
    List (List PlanEntry × Nat) → List PlanEntry
  | [] => best
  | (a, s) :: rest =>
    if s < bs then selectMinAux a s rest else selectMinAux best bs rest

/-- The first best-scored candidate of a list (strict improvement replaces,
first found wins ties), or `none` when no candidate exists. -/
def selectMin : List (List PlanEntry × Nat) → Option (List PlanEntry)
  | [] => none
  | (a, s) :: rest => some (selectMinAux a s rest)

/-- All candidate assignments: the Cartesian product of the per-table option
lists, first table varying slowest. -/
def listProduct : List (List ShardingOption) → List (List ShardingOption)
  | [] => [[]]
  | l :: ls => l.flatMap (fun x => (listProduct ls).map (fun xs => x :: xs))

/-- Modelled from the spec: the proposal search loop - try every candidate
assignment against the partitioner and retain the first best-scored feasible
plan. -/
def planSearch (w : Nat) (effH effD : Int)
    (lists : List (List ShardingOption)) : Option (List PlanEntry) :=
  selectMin ((listProduct lists).filterMap (fun pr =>
    (partitionOpts w pr (fun _ => effH) (fun _ => effD)).map
      (fun r => (r.1, planScore w r.1))))

/-- The fully relaxed search space of a table: every sharding type and every
kernel, ignoring sharder capabilities and per-table constraints. -/
def relaxedOptions (topo : Topology) (batch : Nat)
    (cons : List (String × ParameterConstraints)) (t : TableConfig) :
    List ShardingOption :=
  [ShardingType.row_wise, ShardingType.table_wise].flatMap (fun ty =>
    [ComputeKernel.fused, ComputeKernel.fused_uvm_caching].map (fun k =>
      mkOption topo batch cons t ty k))

/-- Modelled from the spec: failure classification after an exhausted
search - if some fully relaxed assignment would have fit, the failure is due
to constraint incompatibility (`STRICT_CONSTRAINTS`); otherwise raw capacity
is insufficient (`INSUFFICIENT_STORAGE`). -/
def classifyFailure (topo : Topology) (batch : Nat)
    (cons : List (String × ParameterConstraints))
    (tables : List TableConfig) (effH effD : Int) : PlannerErrorType :=
  if (listProduct (tables.map (relaxedOptions topo batch cons))).any
      (fun pr => (partitionOpts topo.world_size pr (fun _ => effH)
        (fun _ => effD)).isSome) then
    .STRICT_CONSTRAINTS
  else .INSUFFICIENT_STORAGE

/-- Modelled from the spec: the planner driver for a claimed module -
reserve storage (failing fast with zero proposals when the effective budget
is already negative), enumerate the per-table search spaces (failing with
`STRICT_CONSTRAINTS` when a table has none), then run the proposal search. -/
def planCore (topo : Topology) (batch pct : Nat) (tables : List TableConfig)
    (s0 : Sharder) (cons : List (String × ParameterConstraints)) :
    PlanResult :=
  let effH := effectiveHbm topo pct batch tables
  let effD := effectiveDdrOf topo
  if effH < 0 then .err ⟨.INSUFFICIENT_STORAGE, 0⟩
  else
    let lists := tables.map (enumerateTable topo batch s0 cons)
    if lists.any (fun l => l.isEmpty) then .err ⟨.STRICT_CONSTRAINTS, 0⟩
    else
      match planSearch topo.world_size effH effD lists with
      | some es => .ok es
      | none =>
        .err ⟨classifyFailure topo batch cons tables effH effD,
          (listProduct lists).length⟩

/-- Modelled from the spec: `EmbeddingShardingPlanner.plan` - with no
sharder no module is claimed and the empty plan is returned; otherwise the
first sharder's capabilities drive the search. -/
def plan (topo : Topology) (batch pct : Nat) (tables : List TableConfig)
    (sharders : List Sharder)
    (cons : List (String × ParameterConstraints)) : PlanResult :=
  match sharders with
  | [] => .ok []
  | s0 :: _ => planCore topo batch pct tables s0 cons

/-- The entries of a successful plan (empty on error). -/
def planOf (r : PlanResult) : List PlanEntry :=
  match r with
  | .ok p => p
  | .err _ => []

/-- Whether a plan call succeeded. -/
def isOk (r : PlanResult) : Bool :=
  match r with
  | .ok _ => true
  | .err _ => false

/-- The error type of a failed plan call. -/
def errTypeOf (r : PlanResult) : Option PlannerErrorType :=
  match r with
  | .ok _ => none
  | .err e => some e.error_type

/-- The number of proposals a failed plan call attempted. -/
def errProposalsOf (r : PlanResult) : Option Nat :=
  match r with
  | .ok _ => none
  | .err e => some e.num_proposals

/-- Modelled from the spec: the configuration-affecting inputs of a planner
whose hash is exposed for memoisation - the topology, the batch size, and
digests identifying the enumerator, storage reservation, performance model
and constraint set. -/
structure PlannerContextInputs where
  topology : Topology
  batch_size : Nat
  enumerator_digest : Nat
  storage_reservation_digest : Nat
  perf_model_digest : Nat
  constraints_digest : Nat
deriving DecidableEq, Repr

/-- Modelled from the spec: `hash_planner_context_inputs` - a pure hash of
the planner's configuration-affecting inputs, built from an injective
pairing of every field. -/
def hash_planner_context_inputs (c : PlannerContextInputs) : Nat :=
  Nat.pair c.topology.world_size (Nat.pair c.topology.local_world_size
    (Nat.pair c.topology.hbm_cap (Nat.pair c.topology.ddr_cap
      (Nat.pair c.batch_size (Nat.pair c.enumerator_digest
        (Nat.pair c.storage_reservation_digest
          (Nat.pair c.perf_model_digest c.constraints_digest)))))))

/-- Embedded from `torchrec/metrics/mse.py`: `compute_mse` - elementwise
`torch.where(weighted_num_samples == 0, 0, error_sum / weighted_num_samples)`
over tensors, modelled as rational-valued lists. -/
def compute_mse (error_sum weighted_num_samples : List ℚ) : List ℚ :=
  List.zipWith (fun e w => if w = 0 then 0 else e / w)
    error_sum weighted_num_samples

/-- Embedded from `torchrec/metrics/mse.py`: `compute_rmse` - elementwise
`torch.where(weighted_num_samples == 0, 0, sqrt (error_sum / weighted_num_samples))`;
the real square root is noncomputable in Lean, the guard structure is the
code's. -/
noncomputable def compute_rmse (error_sum weighted_num_samples : List ℚ) :
    List ℝ :=
  List.zipWith (fun (e w : ℚ) => if w = 0 then (0 : ℝ)
    else Real.sqrt ((e : ℝ) / (w : ℝ))) error_sum weighted_num_samples

/-- Example error sums for the metric witness. -/
def mseEs : List ℚ := [8, 5]

/-- Example weighted sample counts for the metric witness (second is 0). -/
def mseWs : List ℚ := [2, 0]

/-! Concrete scenario inputs from section 8 of the spec (mirroring the
planner test suite): a 2-device topology with 2 MiB of HBM per device, the
table-wise-or-row-wise sharder with only the fused kernel, and the various
table sets. -/

/-- The 2-device, 2 MiB-per-device scenario topology. -/
def topoT : Topology :=
  { world_size := 2, local_world_size := 2, hbm_cap := 2 * 1024 * 1024,
    ddr_cap := 0 }

/-- Sharder offering row-wise and table-wise sharding, fused kernel only. -/
def twRwSharder : Sharder :=
  { sharding_types := [.row_wise, .table_wise], compute_kernels := [.fused] }

/-- Sharder offering only table-wise sharding with the fused kernel. -/
def twSharder : Sharder :=
  { sharding_types := [.table_wise], compute_kernels := [.fused] }

/-- A scenario table of 100 embeddings of dimension 64. -/
def smallTable (nm : String) : TableConfig :=
  { name := nm, num_embeddings := 100, embedding_dim := 64 }

/-- The four-table scenario input. -/
def c3tables : List TableConfig :=
  [ smallTable "table_0", smallTable "table_1", smallTable "table_2",
    smallTable "table_3" ]

/-- The three-table scenario input. -/
def c4tables : List TableConfig :=
  [ smallTable "table_0", smallTable "table_1", smallTable "table_2" ]

/-- A table whose footprint vastly exceeds the cluster budget. -/
def hugeTable (nm : String) : TableConfig :=
  { name := nm, num_embeddings := 10000000, embedding_dim := 10000000 }

/-- The never-fitting scenario input. -/
def c5tables : List TableConfig := [ hugeTable "table_0", hugeTable "table_1" ]

/-- The fail-then-rerun scenario input: one 4096 x 128 table whose single
table-wise shard cannot fit one device's effective budget. -/
def c6tables : List TableConfig :=
  [ { name := "table_0", num_embeddings := 4096, embedding_dim := 128 } ]

/-- The four-table scenario plan call. -/
def c3call : PlanResult := plan topoT 512 15 c3tables [twRwSharder] []

/-- The three-table scenario plan call. -/
def c4call : PlanResult := plan topoT 512 15 c4tables [twRwSharder] []

/-- The all-table-wise candidate assignment of the three-table scenario. -/
def c4AllTwProposal : List ShardingOption :=
  c4tables.map (fun t => mkOption topoT 512 [] t .table_wise .fused)

/-- The placement the partitioner produces for the all-table-wise candidate
of the three-table scenario (it is feasible). -/
def c4AllTwEntries : List PlanEntry :=
  ((partitionOpts 2 c4AllTwProposal
    (fun _ => effectiveHbm topoT 15 512 c4tables)
    (fun _ => effectiveDdrOf topoT)).map (fun r => r.1)).getD []

/-- A roomy 2-device topology for the row-wise coverage example. -/
def topoW : Topology :=
  { world_size := 2, local_world_size := 2, hbm_cap := 1024 * 1024 * 1024,
    ddr_cap := 0 }

/-- A single 100000-row table of dimension 64. -/
def w2tables : List TableConfig :=
  [ { name := "big_table", num_embeddings := 100000, embedding_dim := 64 } ]

/-- Plan call that splits the 100000-row table row-wise over ranks 0, 1. -/
def w2call : PlanResult := plan topoW 512 15 w2tables [twRwSharder] []

/-- The single entry of the 100000-row-table plan. -/
def w2entry : PlanEntry := (planOf w2call).getD 0 default

/-- Constraints mirroring the constraint-propagation planner test: cache
parameters, enforce-hbm, stochastic rounding, bounds-check mode and feature
names on selected tables. -/
def c9cons : List (String × ParameterConstraints) :=
  [ ("table_0",
      { enforce_hbm := some true,
        cache_params := some { algorithm := some .LFU },
        feature_names := some ["feature_0"] }),
    ("table_1",
      { enforce_hbm := some false, stochastic_rounding := some true,
        feature_names := some ["feature_1"] }),
    ("table_2",
      { bounds_check_mode := some .FATAL,
        feature_names := some ["feature_2"] }),
    ("table_3",
      { cache_params :=
          some { algorithm := some .LFU, load_factor := some 10,
                 reserved_memory := some 1, precision := some .FP16 },
        feature_names := some ["feature_3"] }) ]

/-- The four-table scenario planned under the propagation constraints. -/
def c9call : PlanResult := plan topoT 512 15 c3tables [twRwSharder] c9cons

/-- The first entry of the constraint-propagation plan. -/
def c9entry : PlanEntry := (planOf c9call).getD 0 default

/-- A hash-scenario planner context (world size 1, batch 128). -/
def hcA : PlannerContextInputs :=
  { topology :=
      { world_size := 1, local_world_size := 8, hbm_cap := 2 * 1024 * 1024,
        ddr_cap := 0 },
    batch_size := 128, enumerator_digest := 1,
    storage_reservation_digest := 2, perf_model_digest := 3,
    constraints_digest := 4 }

/-- The hash-scenario context with only the world size changed to 2. -/
def hcB : PlannerContextInputs :=
  { topology :=
      { world_size := 2, local_world_size := 8, hbm_cap := 2 * 1024 * 1024,
        ddr_cap := 0 },
    batch_size := 128, enumerator_digest := 1,
    storage_reservation_digest := 2, perf_model_digest := 3,
    constraints_digest := 4 }

/-- The hash-scenario context with only the batch size changed to 256. -/
def hcC : PlannerContextInputs :=
  { topology :=
      { world_size := 1, local_world_size := 8, hbm_cap := 2 * 1024 * 1024,
        ddr_cap := 0 },
    batch_size := 256, enumerator_digest := 1,
    storage_reservation_digest := 2, perf_model_digest := 3,
    constraints_digest := 4 }

/-- A shard covers row `r` when `r` falls in its row range. -/
def coversRow (s : ShardRec) (r : Nat) : Prop :=
  s.offset ≤ r ∧ r < s.offset + s.rows

/-- The shards of one table exactly cover rows `0 .. n-1`: every declared
row lies in exactly one shard (no gaps, no overlaps, no duplication), and no
shard reaches past the declared rows. -/
def ExactCover (shards : List ShardRec) (n : Nat) : Prop :=
  (∀ r, r < n → ∃! s, s ∈ shards ∧ coversRow s r) ∧
  (∀ s, s ∈ shards → s.offset + s.rows ≤ n)

/-- Row-wise shard sizes are as even as possible: one shard per
participating device, the sizes sum to the declared rows, and any
lower-indexed shard is at least as large, by at most one row, as any
higher-indexed shard (the remainder goes to the lowest-indexed devices). -/
def RwEven (shards : List ShardRec) (n w : Nat) : Prop :=
  shards.length = w ∧ (shards.map (fun s => s.rows)).sum = n ∧
  ∀ i j (hi : i < shards.length) (hj : j < shards.length), i ≤ j →
    (shards.get ⟨j, hj⟩).rows ≤ (shards.get ⟨i, hi⟩).rows ∧
    (shards.get ⟨i, hi⟩).rows ≤ (shards.get ⟨j, hj⟩).rows + 1

/-! Helper lemmas about the list combinators of the model. -/

lemma getD_zipWith {α β γ : Type} (f : α → β → γ) (as : List α) (bs : List β)
    (i : Nat) (d : γ) (da : α) (db : β) (h1 : i < as.length)
    (h2 : i < bs.length) :
    (List.zipWith f as bs).getD i d = f (as.getD i da) (bs.getD i db) := by
  induction as generalizing bs i with
  | nil => simp at h1
  | cons a as ih =>
    cases bs with
    | nil => simp at h2
    | cons b bs =>
      cases i with
      | zero => simp
      | succ i =>
        simpa using ih bs i (by simpa using h1) (by simpa using h2)

lemma selectMinAux_mem (l : List (List PlanEntry × Nat))
    (best : List PlanEntry) (bs : Nat) :
    selectMinAux best bs l = best ∨ ∃ s, (selectMinAux best bs l, s) ∈ l := by
  induction l generalizing best bs with
  | nil => exact Or.inl rfl
  | cons hd rest ih =>
    obtain ⟨a, s⟩ := hd
    simp only [selectMinAux]
    split
    · rcases ih a s with h | ⟨s', h'⟩
      · exact Or.inr ⟨s, by rw [h]; exact List.mem_cons_self _ _⟩
      · exact Or.inr ⟨s', List.mem_cons_of_mem _ h'⟩
    · rcases ih best bs with h | ⟨s', h'⟩
      · exact Or.inl h
      · exact Or.inr ⟨s', List.mem_cons_of_mem _ h'⟩

lemma selectMin_mem (l : List (List PlanEntry × Nat)) (es : List PlanEntry)
    (h : selectMin l = some es) : ∃ s, (es, s) ∈ l := by
  cases l with
  | nil => simp [selectMin] at h
  | cons hd rest =>
    obtain ⟨a, s⟩ := hd
    simp only [selectMin, Option.some.injEq] at h
    subst h
    rcases selectMinAux_mem rest a s with h' | ⟨s', h'⟩
    · exact ⟨s, by rw [h']; exact List.mem_cons_self _ _⟩
    · exact ⟨s', List.mem_cons_of_mem _ h'⟩

lemma listProduct_mem_mem (lists : List (List ShardingOption))
    (pr : List ShardingOption) (hpr : pr ∈ listProduct lists)
    (o : ShardingOption) (ho : o ∈ pr) : ∃ l, l ∈ lists ∧ o ∈ l := by
  induction lists generalizing pr with
  | nil =>
    simp [listProduct] at hpr
    subst hpr
    simp at ho
  | cons l ls ih =>
    simp only [listProduct, List.mem_flatMap, List.mem_map] at hpr
    obtain ⟨x, hx, xs, hxs, rfl⟩ := hpr
    rcases List.mem_cons.mp ho with rfl | ho'
    · exact ⟨l, List.mem_cons_self _ _, hx⟩
    · obtain ⟨l', hl', ho''⟩ := ih xs hxs ho'
      exact ⟨l', List.mem_cons_of_mem _ hl', ho''⟩

/-! Helper lemmas about device contributions and the partitioner. -/

lemma rankContrib_cons (g : ShardRec → Nat) (s : ShardRec)
    (ss : List ShardRec) (r : Nat) (rest : List Nat) (d : Nat) :
    rankContrib g (s :: ss) (r :: rest) d =
      (if r = d then g s else 0) + rankContrib g ss rest d := by
  simp [rankContrib]

lemma rankContrib_replicate (g : ShardRec → Nat) (ss : List ShardRec)
    (dev d : Nat) :
    rankContrib g ss (List.replicate ss.length dev) d =
      if dev = d then (ss.map g).sum else 0 := by
  induction ss with
  | nil => simp [rankContrib]
  | cons s ss ih =>
    rw [show (s :: ss).length = ss.length + 1 from rfl, List.replicate_succ,
      rankContrib_cons, ih]
    split <;> simp

lemma contribAt_zero_of_ge (g : ShardRec → Nat) :
    ∀ (ss : List ShardRec) (i : Nat), ss.length ≤ i → contribAt g ss i = 0 := by
  intro ss
  induction ss with
  | nil => intro i _; rfl
  | cons s ss ih =>
    intro i hi
    cases i with
    | zero => simp at hi
    | succ i => exact ih i (by simpa using hi)

lemma rankContrib_range' (g : ShardRec → Nat) (ss : List ShardRec) :
    ∀ k d, rankContrib g ss (List.range' k ss.length) d =
      if k ≤ d then contribAt g ss (d - k) else 0 := by
  induction ss with
  | nil =>
    intro k d
    simp [rankContrib, contribAt]
  | cons s ss ih =>
    intro k d
    rw [show (s :: ss).length = ss.length + 1 from rfl, List.range'_succ,
      rankContrib_cons, ih (k + 1) d]
    by_cases h1 : k = d
    · subst h1
      rw [if_pos rfl, if_pos (le_refl k), if_neg (by omega), Nat.sub_self]
      simp [contribAt]
    · rw [if_neg h1]
      by_cases h2 : k ≤ d
      · rw [if_pos (by omega : k + 1 ≤ d), if_pos h2]
        have hd : d - k = (d - (k + 1)) + 1 := by omega
        rw [hd]
        simp [contribAt]
      · rw [if_neg (by omega : ¬ k + 1 ≤ d), if_neg h2]

lemma placeRW_spec :
    ∀ (ss : List ShardRec) (k : Nat) (rH rD rH' rD' : Nat → Int),
    placeRW ss k rH rD = some (rH', rD') →
    (∀ d, 0 ≤ rH d) → (∀ d, 0 ≤ rD d) →
    ∀ d, 0 ≤ rH' d ∧ 0 ≤ rD' d ∧
      rH' d = rH d -
        rankContrib (fun s => s.hbm) ss (List.range' k ss.length) d ∧
      rD' d = rD d -
        rankContrib (fun s => s.ddr) ss (List.range' k ss.length) d := by
  intro ss
  induction ss with
  | nil =>
    intro k rH rD rH' rD' h h0 h1 d
    simp only [placeRW, Option.some.injEq, Prod.mk.injEq] at h
    obtain ⟨rfl, rfl⟩ := h
    simp [rankContrib, h0 d, h1 d]
  | cons s ss ih =>
    intro k rH rD rH' rD' h h0 h1 d
    simp only [placeRW] at h
    split at h
    · rename_i hcond
      have h0' : ∀ d', 0 ≤ upd rH k (rH k - s.hbm) d' := by
        intro d'
        unfold upd
        split
        · rename_i hd'; subst hd'; omega
        · exact h0 d'
      have h1' : ∀ d', 0 ≤ upd rD k (rD k - s.ddr) d' := by
        intro d'
        unfold upd
        split
        · rename_i hd'; subst hd'; omega
        · exact h1 d'
      have hspec := ih (k + 1) _ _ _ _ h h0' h1' d
      rw [show (s :: ss).length = ss.length + 1 from rfl, List.range'_succ,
        rankContrib_cons, rankContrib_cons]
      obtain ⟨ha, hb, hc, hd'⟩ := hspec
      refine ⟨ha, hb, ?_, ?_⟩
      · rw [hc]
        unfold upd
        by_cases hk : d = k
        · subst hk; simp; omega
        · simp [hk, Ne.symm hk]
      · rw [hd']
        unfold upd
        by_cases hk : d = k
        · subst hk; simp; omega
        · simp [hk, Ne.symm hk]
    · exact absurd h (by simp)

lemma usedOn_cons (g : ShardRec → Nat) (e : PlanEntry) (es : List PlanEntry)
    (d : Nat) : usedOn g (e :: es) d = entryOn g e d + usedOn g es d := by
  simp [usedOn]

lemma placeOpt_spec (w : Nat) (opt : ShardingOption) (rH rD : Nat → Int)
    (rks : List Nat) (rH' rD' : Nat → Int)
    (h : placeOpt w opt rH rD = some (rks, rH', rD'))
    (h0 : ∀ d, 0 ≤ rH d) (h1 : ∀ d, 0 ≤ rD d) :
    ∀ d, 0 ≤ rH' d ∧ 0 ≤ rD' d ∧
      rH' d = rH d - entryOn (fun s => s.hbm) ⟨opt, rks⟩ d ∧
      rD' d = rD d - entryOn (fun s => s.ddr) ⟨opt, rks⟩ d := by
  intro d
  unfold placeOpt at h
  split at h
  · -- table-wise
    dsimp only at h
    split at h
    · rename_i hcond
      simp only [Option.some.injEq, Prod.mk.injEq] at h
      obtain ⟨rfl, rfl, rfl⟩ := h
      simp only [entryOn, rankContrib_replicate]
      unfold upd
      by_cases hk : d = chooseDevice w rH
      · subst hk
        simp only [if_pos rfl]
        refine ⟨by omega, by omega, by push_cast; omega, by push_cast; omega⟩
      · have hk2 : ¬ (chooseDevice w rH = d) := fun hh => hk hh.symm
        simp only [if_neg hk, if_neg hk2]
        refine ⟨h0 d, h1 d, by omega, by omega⟩
    · exact absurd h (by simp)
  · -- row-wise
    rw [Option.map_eq_some'] at h
    obtain ⟨r, hr, hr2⟩ := h
    obtain ⟨rH0, rD0⟩ := r
    simp only [Prod.mk.injEq] at hr2
    obtain ⟨rfl, rfl, rfl⟩ := hr2
    have hspec := placeRW_spec opt.shards 0 rH rD rH0 rD0 hr h0 h1 d
    simpa [entryOn, List.range_eq_range'] using hspec

lemma partitionOpts_opts (w : Nat) :
    ∀ (opts : List ShardingOption) (rH rD : Nat → Int) (es : List PlanEntry)
      (rH' rD' : Nat → Int),
    partitionOpts w opts rH rD = some (es, rH', rD') →
    es.map (fun e => e.opt) = opts := by
  intro opts
  induction opts with
  | nil =>
    intro rH rD es rH' rD' h
    simp only [partitionOpts, Option.some.injEq, Prod.mk.injEq] at h
    obtain ⟨rfl, _, _⟩ := h
    rfl
  | cons opt rest ih =>
    intro rH rD es rH' rD' h
    simp only [partitionOpts] at h
    split at h
    · exact absurd h (by simp)
    · rename_i rks rH1 rD1 hpl
      split at h
      · exact absurd h (by simp)
      · rename_i es2 rH2 rD2 hrest
        simp only [Option.some.injEq, Prod.mk.injEq] at h
        obtain ⟨rfl, _, _⟩ := h
        simp [ih _ _ _ _ _ hrest]

lemma partitionOpts_spec (w : Nat) :
    ∀ (opts : List ShardingOption) (rH rD : Nat → Int) (es : List PlanEntry)
      (rH' rD' : Nat → Int),
    partitionOpts w opts rH rD = some (es, rH', rD') →
    (∀ d, 0 ≤ rH d) → (∀ d, 0 ≤ rD d) →
    ∀ d, 0 ≤ rH' d ∧ 0 ≤ rD' d ∧
      rH' d = rH d - usedOn (fun s => s.hbm) es d ∧
      rD' d = rD d - usedOn (fun s => s.ddr) es d := by
  intro opts
  induction opts with
  | nil =>
    intro rH rD es rH' rD' h h0 h1 d
    simp only [partitionOpts, Option.some.injEq, Prod.mk.injEq] at h
    obtain ⟨rfl, rfl, rfl⟩ := h
    simp [usedOn, h0 d, h1 d]
  | cons opt rest ih =>
    intro rH rD es rH' rD' h h0 h1 d
    simp only [partitionOpts] at h
    split at h
    · exact absurd h (by simp)
    · rename_i rks rH1 rD1 hpl
      split at h
      · exact absurd h (by simp)
      · rename_i es2 rH2 rD2 hrest
        simp only [Option.some.injEq, Prod.mk.injEq] at h
        obtain ⟨rfl, rfl, rfl⟩ := h
        have hstep := placeOpt_spec w opt rH rD rks rH1 rD1 hpl h0 h1
        have h0' : ∀ d', 0 ≤ rH1 d' := fun d' => (hstep d').1
        have h1' : ∀ d', 0 ≤ rD1 d' := fun d' => (hstep d').2.1
        have htail := ih _ _ _ _ _ hrest h0' h1' d
        obtain ⟨ha, hb, hc, hd'⟩ := htail
        obtain ⟨_, _, hc0, hd0⟩ := hstep d
        rw [usedOn_cons, usedOn_cons]
        refine ⟨ha, hb, ?_, ?_⟩
        · rw [hc, hc0]; push_cast; omega
        · rw [hd', hd0]; push_cast; omega

lemma planSearch_ok (w : Nat) (effH effD : Int)
    (lists : List (List ShardingOption)) (es : List PlanEntry)
    (h : planSearch w effH effD lists = some es) :
    ∃ pr, pr ∈ listProduct lists ∧ ∃ rH' rD',
      partitionOpts w pr (fun _ => effH) (fun _ => effD) =
        some (es, rH', rD') := by
  obtain ⟨s, hmem⟩ := selectMin_mem _ _ h
  obtain ⟨pr, hpr, hmap⟩ := List.mem_filterMap.mp hmem
  obtain ⟨r, hr, hr2⟩ := Option.map_eq_some'.mp hmap
  obtain ⟨es', rH', rD'⟩ := r
  simp only [Prod.mk.injEq] at hr2
  obtain ⟨rfl, -⟩ := hr2
  exact ⟨pr, hpr, rH', rD', hr⟩

lemma plan_ok_elim (topo : Topology) (batch pct : Nat)
    (tables : List TableConfig) (sharders : List Sharder)
    (cons : List (String × ParameterConstraints)) (p : List PlanEntry)
    (h : plan topo batch pct tables sharders cons = .ok p) :
    (sharders = [] ∧ p = []) ∨
    ∃ s0 rest, sharders = s0 :: rest ∧
      0 ≤ effectiveHbm topo pct batch tables ∧
      ∃ pr, pr ∈ listProduct (tables.map (enumerateTable topo batch s0 cons)) ∧
        ∃ rH' rD', partitionOpts topo.world_size pr
          (fun _ => effectiveHbm topo pct batch tables)
          (fun _ => effectiveDdrOf topo) = some (p, rH', rD') := by
  cases sharders with
  | nil =>
    left
    simp only [plan, PlanResult.ok.injEq] at h
    exact ⟨rfl, h.symm⟩
  | cons s0 rest =>
    right
    refine ⟨s0, rest, rfl, ?_⟩
    simp only [plan, planCore] at h
    split at h
    · exact absurd h (by simp)
    · rename_i hnn
      split at h
      · exact absurd h (by simp)
      · split at h
        · rename_i es hsearch
          simp only [PlanResult.ok.injEq] at h
          subst h
          exact ⟨by omega, planSearch_ok _ _ _ _ _ hsearch⟩
        · exact absurd h (by simp)

lemma enumerateTable_mem (topo : Topology) (batch : Nat) (s0 : Sharder)
    (cons : List (String × ParameterConstraints)) (t : TableConfig)
    (o : ShardingOption) (h : o ∈ enumerateTable topo batch s0 cons t) :
    ∃ ty k, o = mkOption topo batch cons t ty k := by
  simp only [enumerateTable, List.mem_flatMap, List.mem_map] at h
  obtain ⟨ty, _, k, _, rfl⟩ := h
  exact ⟨ty, k, rfl⟩

/-- Every entry of a successful plan was built by the enumerator from one of
the input tables. -/
lemma plan_ok_entry_from_table (topo : Topology) (batch pct : Nat)
    (tables : List TableConfig) (sharders : List Sharder)
    (cons : List (String × ParameterConstraints)) (p : List PlanEntry)
    (h : plan topo batch pct tables sharders cons = .ok p)
    (e : PlanEntry) (he : e ∈ p) :
    ∃ t, t ∈ tables ∧ ∃ ty k, e.opt = mkOption topo batch cons t ty k := by
  rcases plan_ok_elim topo batch pct tables sharders cons p h with
    ⟨-, rfl⟩ | ⟨s0, rest, -, -, pr, hpr, rH', rD', hpart⟩
  · cases he
  · have hopts := partitionOpts_opts _ _ _ _ _ _ _ hpart
    have hoin : e.opt ∈ pr := by
      rw [← hopts]
      exact List.mem_map_of_mem (fun e => e.opt) he
    obtain ⟨l, hl, hol⟩ := listProduct_mem_mem _ _ hpr _ hoin
    obtain ⟨t, ht, rfl⟩ := List.mem_map.mp hl
    obtain ⟨ty, k, heq⟩ := enumerateTable_mem _ _ _ _ _ _ hol
    exact ⟨t, ht, ty, k, heq⟩

/-! Helper lemmas about the shard geometry. -/

lemma mkShards_rows (f : Nat → Nat × Nat × Nat) :
    ∀ (sizes : List Nat) (off : Nat),
      (mkShards f off sizes).map (fun s => s.rows) = sizes := by
  intro sizes
  induction sizes with
  | nil => intro off; rfl
  | cons sz rest ih => intro off; simp [mkShards, ih]

lemma mkShards_length (f : Nat → Nat × Nat × Nat) (sizes : List Nat)
    (off : Nat) : (mkShards f off sizes).length = sizes.length := by
  rw [← List.length_map (mkShards f off sizes) (fun s => s.rows),
    mkShards_rows]

lemma mkShards_bounds (f : Nat → Nat × Nat × Nat) :
    ∀ (sizes : List Nat) (off : Nat) (s : ShardRec),
      s ∈ mkShards f off sizes →
      off ≤ s.offset ∧ s.offset + s.rows ≤ off + sizes.sum := by
  intro sizes
  induction sizes with
  | nil => intro off s hs; cases hs
  | cons sz rest ih =>
    intro off s hs
    rcases List.mem_cons.mp hs with rfl | hs'
    · simp only [List.sum_cons]
      omega
    · have := ih (off + sz) s hs'
      simp only [List.sum_cons]
      omega

lemma mkShards_cover (f : Nat → Nat × Nat × Nat) :
    ∀ (sizes : List Nat) (off r : Nat), off ≤ r → r < off + sizes.sum →
      ∃! s, s ∈ mkShards f off sizes ∧ coversRow s r := by
  intro sizes
  induction sizes with
  | nil =>
    intro off r h1 h2
    simp only [List.sum_nil] at h2
    omega
  | cons sz rest ih =>
    intro off r h1 h2
    by_cases hr : r < off + sz
    · refine ⟨⟨off, sz, (f sz).1, (f sz).2.1, (f sz).2.2⟩,
        ⟨List.mem_cons_self _ _, h1, hr⟩, ?_⟩
      rintro y ⟨hy, hycov⟩
      rcases List.mem_cons.mp hy with rfl | hy'
      · rfl
      · have := mkShards_bounds f rest (off + sz) y hy'
        obtain ⟨hcov1, hcov2⟩ := hycov
        omega
    · have hle : off + sz ≤ r := by omega
      have hlt : r < (off + sz) + rest.sum := by
        simp only [List.sum_cons] at h2
        omega
      obtain ⟨s, ⟨hmem, hcov⟩, huniq⟩ := ih (off + sz) r hle hlt
      refine ⟨s, ⟨List.mem_cons_of_mem _ hmem, hcov⟩, ?_⟩
      rintro y ⟨hy, hycov⟩
      rcases List.mem_cons.mp hy with rfl | hy'
      · obtain ⟨hcov1, hcov2⟩ := hycov
        simp only at hcov1 hcov2
        omega
      · exact huniq y ⟨hy', hycov⟩

lemma sum_map_add_range (f g : Nat → Nat) (w : Nat) :
    ((List.range w).map (fun i => f i + g i)).sum =
      ((List.range w).map f).sum + ((List.range w).map g).sum := by
  induction w with
  | zero => rfl
  | succ w ih =>
    rw [List.range_succ]
    simp only [List.map_append, List.sum_append, ih, List.map_cons,
      List.map_nil, List.sum_cons, List.sum_nil]
    omega

lemma sum_map_const_range (c w : Nat) :
    ((List.range w).map (fun _ => c)).sum = w * c := by
  induction w with
  | zero => simp
  | succ w ih =>
    rw [List.range_succ]
    simp only [List.map_append, List.sum_append, ih, List.map_cons,
      List.map_nil, List.sum_cons, List.sum_nil]
    rw [Nat.succ_mul]
    omega

lemma sum_indicator_range (m w : Nat) :
    ((List.range w).map (fun i => if i < m then 1 else 0)).sum = min m w := by
  induction w with
  | zero => simp
  | succ w ih =>
    rw [List.range_succ]
    simp only [List.map_append, List.sum_append, ih, List.map_cons,
      List.map_nil, List.sum_cons, List.sum_nil]
    by_cases h : w < m
    · rw [if_pos h]
      omega
    · rw [if_neg h]
      omega

lemma evenSplit_length (n w : Nat) : (evenSplit n w).length = w := by
  simp [evenSplit]

lemma evenSplit_sum (n w : Nat) (hw : 0 < w) : (evenSplit n w).sum = n := by
  unfold evenSplit
  rw [sum_map_add_range (fun _ => n / w) (fun i => if i < n % w then 1 else 0),
    sum_map_const_range, sum_indicator_range]
  have h1 : n % w < w := Nat.mod_lt _ hw
  rw [Nat.min_eq_left (le_of_lt h1)]
  exact Nat.div_add_mod n w

lemma evenSplit_getElem (n w i : Nat) (h : i < (evenSplit n w).length) :
    (evenSplit n w)[i] = n / w + if i < n % w then 1 else 0 := by
  have hi : i < w := by
    rw [evenSplit_length] at h
    exact h
  simp [evenSplit]

lemma sizesFor_sum (ty : ShardingType) (n w : Nat) (hw : 0 < w) :
    (sizesFor ty n w).sum = n := by
  cases ty with
  | table_wise => simp [sizesFor]
  | row_wise => exact evenSplit_sum n w hw

/-- The shards the enumerator builds for any (type, kernel) pair exactly
cover the table's declared rows. -/
lemma mkOption_cover (topo : Topology) (batch : Nat)
    (cons : List (String × ParameterConstraints)) (t : TableConfig)
    (ty : ShardingType) (k : ComputeKernel) (hw : 0 < topo.world_size) :
    ExactCover (mkOption topo batch cons t ty k).shards t.num_embeddings := by
  have hsum := sizesFor_sum ty t.num_embeddings topo.world_size hw
  constructor
  · intro r hr
    have := mkShards_cover (shardCost t.embedding_dim batch ty k)
      (sizesFor ty t.num_embeddings topo.world_size) 0 r (Nat.zero_le r)
      (by omega)
    simpa [mkOption] using this
  · intro s hs
    have hs' : s ∈ mkShards (shardCost t.embedding_dim batch ty k) 0
        (sizesFor ty t.num_embeddings topo.world_size) := by
      simpa [mkOption] using hs
    have := mkShards_bounds _ _ _ _ hs'
    omega

/-- The row-wise shards the enumerator builds are split as evenly as
possible with the remainder on the lowest-indexed devices. -/
lemma mkOption_rw_even (topo : Topology) (batch : Nat)
    (cons : List (String × ParameterConstraints)) (t : TableConfig)
    (k : ComputeKernel) (hw : 0 < topo.world_size) :
    RwEven (mkOption topo batch cons t .row_wise k).shards
      t.num_embeddings topo.world_size := by
  have hrows : (mkOption topo batch cons t .row_wise k).shards.map
      (fun s => s.rows) = evenSplit t.num_embeddings topo.world_size := by
    simp [mkOption, sizesFor, mkShards_rows]
  have hlen : (mkOption topo batch cons t .row_wise k).shards.length =
      topo.world_size := by
    rw [← List.length_map _ (fun s => s.rows), hrows, evenSplit_length]
  refine ⟨hlen, by rw [hrows]; exact evenSplit_sum _ _ hw, ?_⟩
  intro i j hi hj hij
  have hget : ∀ (a : Nat) (ha : a < (mkOption topo batch cons t
      .row_wise k).shards.length),
      ((mkOption topo batch cons t .row_wise k).shards.get ⟨a, ha⟩).rows =
        t.num_embeddings / topo.world_size +
          if a < t.num_embeddings % topo.world_size then 1 else 0 := by
    intro a ha
    have ha2 : a < (evenSplit t.num_embeddings topo.world_size).length := by
      rw [evenSplit_length]
      exact hlen ▸ ha
    have h1 : ((mkOption topo batch cons t .row_wise k).shards[a]?).map
        (fun s => s.rows) =
        (evenSplit t.num_embeddings topo.world_size)[a]? := by
      rw [← List.getElem?_map, hrows]
    rw [List.getElem?_eq_getElem ha, List.getElem?_eq_getElem ha2,
      Option.map_some'] at h1
    have h2 := Option.some.inj h1
    rw [List.get_eq_getElem, h2]
    exact evenSplit_getElem _ _ _ ha2
  rw [hget i hi, hget j hj]
  constructor <;> · split_ifs <;> omega

/-- Distinct tables of a nodup-named table list have distinct names. -/
lemma nodup_name_eq (tables : List TableConfig)
    (hnd : (tables.map (fun t => t.name)).Nodup) (t t' : TableConfig)
    (ht : t ∈ tables) (ht' : t' ∈ tables) (h : t.name = t'.name) : t = t' :=
  List.inj_on_of_nodup_map hnd ht ht' h

/-! The claims. -/

/-- C1: capacity invariant - for every successful `plan` call and every
device, the total storage of the shards the plan assigns to that device is,
in each memory tier, at most the device's effective (post-reservation)
budget for that tier. -/
theorem c1_capacity_invariant (topo : Topology) (batch pct : Nat)
    (tables : List TableConfig) (sharders : List Sharder)
    (cons : List (String × ParameterConstraints)) (p : List PlanEntry)
    (hp : plan topo batch pct tables sharders cons = .ok p)
    (d : Nat) (_hd : d < topo.world_size) :
    (usedHbm p d : Int) ≤ effectiveHbmOf topo pct batch tables sharders ∧
    (usedDdr p d : Int) ≤ effectiveDdrOf topo := by
  rcases plan_ok_elim topo batch pct tables sharders cons p hp with
    ⟨rfl, rfl⟩ | ⟨s0, rest, rfl, hnn, pr, hpr, rH', rD', hpart⟩
  · constructor
    · simp only [usedHbm, usedOn, List.map_nil, List.sum_nil, effectiveHbmOf]
      omega
    · simp only [usedDdr, usedOn, List.map_nil, List.sum_nil, effectiveDdrOf]
      omega
  · obtain ⟨hnnH, hnnD, hH, hD⟩ := partitionOpts_spec topo.world_size pr _ _
      p rH' rD' hpart (fun _ => hnn) (fun _ => Int.natCast_nonneg _) d
    have hH' : rH' d = effectiveHbm topo pct batch tables -
        (usedOn (fun s => s.hbm) p d : Int) := hH
    have hD' : rD' d = effectiveDdrOf topo -
        (usedOn (fun s => s.ddr) p d : Int) := hD
    constructor
    · have heq : effectiveHbmOf topo pct batch tables (s0 :: rest) =
          effectiveHbm topo pct batch tables := rfl
      rw [heq]
      have hused : usedHbm p d = usedOn (fun s => s.hbm) p d := rfl
      rw [hused]
      omega
    · have hused : usedDdr p d = usedOn (fun s => s.ddr) p d := rfl
      rw [hused]
      omega

/-- Witness for C1 at the four-table scenario: both devices respect both
tier budgets. -/
theorem c1_capacity_invariant_witness :
    ((usedHbm (planOf c3call) 0 : Int) ≤
        effectiveHbmOf topoT 15 512 c3tables [twRwSharder] ∧
      (usedDdr (planOf c3call) 0 : Int) ≤ effectiveDdrOf topoT) ∧
    ((usedHbm (planOf c3call) 1 : Int) ≤
        effectiveHbmOf topoT 15 512 c3tables [twRwSharder] ∧
      (usedDdr (planOf c3call) 1 : Int) ≤ effectiveDdrOf topoT) :=
  ⟨c1_capacity_invariant topoT 512 15 c3tables [twRwSharder] []
      (planOf c3call) (by decide) 0 (by decide),
    c1_capacity_invariant topoT 512 15 c3tables [twRwSharder] []
      (planOf c3call) (by decide) 1 (by decide)⟩

/-- C2: coverage invariant - every table placed by a successful plan has its
declared rows exactly covered by its shards (each row in exactly one shard,
no shard past the declared rows), and a row-wise placement splits the rows
as evenly as possible with the remainder on the lowest-indexed devices. -/
theorem c2_coverage_invariant (topo : Topology) (batch pct : Nat)
    (tables : List TableConfig) (sharders : List Sharder)
    (cons : List (String × ParameterConstraints)) (p : List PlanEntry)
    (hw : 0 < topo.world_size)
    (hnd : (tables.map (fun t => t.name)).Nodup)
    (hp : plan topo batch pct tables sharders cons = .ok p)
    (t : TableConfig) (ht : t ∈ tables) (e : PlanEntry) (he : e ∈ p)
    (hname : e.opt.name = t.name) :
    ExactCover e.opt.shards t.num_embeddings ∧
    (e.opt.sharding_type = .row_wise →
      RwEven e.opt.shards t.num_embeddings topo.world_size) := by
  obtain ⟨t', ht', ty, k, heq⟩ :=
    plan_ok_entry_from_table topo batch pct tables sharders cons p hp e he
  rw [heq] at hname
  have hname' : t'.name = t.name := hname
  have htt : t' = t := nodup_name_eq tables hnd t' t ht' ht hname'
  subst htt
  constructor
  · rw [heq]
    exact mkOption_cover topo batch cons t' ty k hw
  · intro hrw
    rw [heq] at hrw
    have hty : ty = .row_wise := hrw
    subst hty
    rw [heq]
    exact mkOption_rw_even topo batch cons t' k hw

/-- Witness for C2: the 100000-row table split row-wise over ranks 0 and 1
yields two shards of 50000 rows at row offsets 0 and 50000, exactly
covering the table. -/
theorem c2_coverage_invariant_witness :
    ExactCover w2entry.opt.shards 100000 ∧
    RwEven w2entry.opt.shards 100000 2 ∧
    w2entry.opt.shards.map (fun s => (s.offset, s.rows)) =
      [(0, 50000), (50000, 50000)] ∧
    w2entry.ranks = [0, 1] := by
  have h := c2_coverage_invariant topoW 512 15 w2tables [twRwSharder] []
    (planOf w2call) (by decide) (by decide) (by decide)
    ⟨"big_table", 100000, 64, []⟩ (by decide) w2entry (by decide) (by decide)
  exact ⟨h.1, h.2 (by decide), by decide, by decide⟩

/-- C3: four 100 x 64 tables on the 2-device 2 MiB topology with the
table-wise-or-row-wise fused-only sharder plan successfully, every table
placed table-wise on a single rank, two tables per rank (the rank lists are
a permutation of `[[0], [0], [1], [1]]`). -/
theorem c3_tw_solution :
    isOk c3call = true ∧
    (planOf c3call).map (fun e => e.opt.sharding_type) =
      [.table_wise, .table_wise, .table_wise, .table_wise] ∧
    (planOf c3call).map (fun e => e.ranks) = [[0], [1], [0], [1]] ∧
    ((planOf c3call).map (fun e => e.ranks)).Perm [[0], [0], [1], [1]] := by
  decide

/-- C4 counterexample: in the three-table scenario the all-table-wise
candidate is feasible - after placing two tables table-wise, the remaining
per-device budget does hold the third as a single table-wise shard - so the
claim's causal clause is false even though the returned plan does spread one
table row-wise. -/
theorem c4_hidden_rw_counterexample :
    (partitionOpts 2 c4AllTwProposal
      (fun _ => effectiveHbm topoT 15 512 c4tables)
      (fun _ => effectiveDdrOf topoT)).isSome = true ∧
    ((planOf c4call).map (fun e => e.ranks)).Perm [[0], [0, 1], [1]] := by
  decide

/-- C4 (amended): three 100 x 64 tables on the same topology plan
successfully with exactly one table spread row-wise across both ranks (rank
lists a permutation of `[[0], [0, 1], [1]]`); the spread is chosen because
it strictly lowers the maximum per-device performance cost relative to the
all-table-wise placement, which also fits the budget. -/
theorem c4_hidden_rw_amended :
    isOk c4call = true ∧
    ((planOf c4call).map (fun e => e.ranks)).Perm [[0], [0, 1], [1]] ∧
    ((planOf c4call).map (fun e => e.opt.sharding_type)).count
      .row_wise = 1 ∧
    planScore 2 (planOf c4call) < planScore 2 c4AllTwEntries := by
  decide

/-- C5: two 10000000 x 10000000 tables on the 2 MiB topology make the
reservation exceed the budget, so the effective budget is negative and
`plan` raises `INSUFFICIENT_STORAGE` with exactly zero proposals
attempted. -/
theorem c5_never_fit :
    plan topoT 512 15 c5tables [twRwSharder] [] =
      .err ⟨.INSUFFICIENT_STORAGE, 0⟩ ∧
    effectiveHbm topoT 15 512 c5tables < 0 := by
  decide

/-- C6: the 4096 x 128 table cannot fit one device table-wise, so the
table-wise-only sharder raises `STRICT_CONSTRAINTS`; re-planning with the
table-wise-or-row-wise sharder succeeds and places the table row-wise
across exactly ranks 0 and 1. -/
theorem c6_fail_then_rerun :
    errTypeOf (plan topoT 512 15 c6tables [twSharder] []) =
      some .STRICT_CONSTRAINTS ∧
    isOk (plan topoT 512 15 c6tables [twRwSharder] []) = true ∧
    (planOf (plan topoT 512 15 c6tables [twRwSharder] [])).map
      (fun e => (e.opt.sharding_type, e.ranks)) = [(.row_wise, [0, 1])] := by
  decide

/-- C7: for every module, table set and constraint set, planning with an
empty sharder list returns the empty sharding plan and never raises. -/
theorem c7_no_sharders (topo : Topology) (batch pct : Nat)
    (tables : List TableConfig)
    (cons : List (String × ParameterConstraints)) :
    plan topo batch pct tables [] cons = .ok [] := rfl

/-- C8: `hash_planner_context_inputs` is deterministic - identical
configuration inputs hash equal - and input-sensitive: changing the
topology's world size alone, or the batch size alone, changes the hash. -/
theorem c8_hash_planner_context_inputs (a b : PlannerContextInputs) :
    (a = b →
      hash_planner_context_inputs a = hash_planner_context_inputs b) ∧
    (a.topology.world_size ≠ b.topology.world_size →
      hash_planner_context_inputs a ≠ hash_planner_context_inputs b) ∧
    (a.batch_size ≠ b.batch_size →
      hash_planner_context_inputs a ≠ hash_planner_context_inputs b) := by
  refine ⟨fun h => by rw [h], fun hne heq => ?_, fun hne heq => ?_⟩
  · simp only [hash_planner_context_inputs, Nat.pair_eq_pair] at heq
    exact hne heq.1
  · simp only [hash_planner_context_inputs, Nat.pair_eq_pair] at heq
    exact hne heq.2.2.2.2.1

/-- Witness for C8 at the hash-scenario contexts: equal inputs hash equal;
changing only the world size, or only the batch size, changes the hash. -/
theorem c8_hash_witness :
    hash_planner_context_inputs hcA = hash_planner_context_inputs hcA ∧
    hash_planner_context_inputs hcA ≠ hash_planner_context_inputs hcB ∧
    hash_planner_context_inputs hcA ≠ hash_planner_context_inputs hcC :=
  ⟨(c8_hash_planner_context_inputs hcA hcA).1 rfl,
    (c8_hash_planner_context_inputs hcA hcB).2.1 (by decide),
    (c8_hash_planner_context_inputs hcA hcC).2.2 (by decide)⟩

/-- C9: the constraint fields cache_params, enforce_hbm,
stochastic_rounding, bounds_check_mode, is_weighted and feature_names are
propagated unchanged from the input constraints through the chosen sharding
option into every placement record of a successful plan; fields the
constraints leave unset remain `none`. -/
theorem c9_constraint_propagation (topo : Topology) (batch pct : Nat)
    (tables : List TableConfig) (sharders : List Sharder)
    (cons : List (String × ParameterConstraints)) (p : List PlanEntry)
    (hp : plan topo batch pct tables sharders cons = .ok p)
    (e : PlanEntry) (he : e ∈ p) :
    e.opt.cache_params =
      (lookupConstraint cons e.opt.name).bind (fun pc => pc.cache_params) ∧
    e.opt.enforce_hbm =
      (lookupConstraint cons e.opt.name).bind (fun pc => pc.enforce_hbm) ∧
    e.opt.stochastic_rounding =
      (lookupConstraint cons e.opt.name).bind
        (fun pc => pc.stochastic_rounding) ∧
    e.opt.bounds_check_mode =
      (lookupConstraint cons e.opt.name).bind
        (fun pc => pc.bounds_check_mode) ∧
    e.opt.is_weighted =
      (lookupConstraint cons e.opt.name).bind (fun pc => pc.is_weighted) ∧
    e.opt.feature_names =
      (lookupConstraint cons e.opt.name).bind (fun pc => pc.feature_names)
    := by
  obtain ⟨t, ht, ty, k, heq⟩ :=
    plan_ok_entry_from_table topo batch pct tables sharders cons p hp e he
  rw [heq]
  exact ⟨rfl, rfl, rfl, rfl, rfl, rfl⟩

/-- Witness for C9 at the constrained four-table scenario: the first placed
table carries exactly the constraint fields declared for it. -/
theorem c9_constraint_propagation_witness :
    (c9entry.opt.cache_params =
      (lookupConstraint c9cons c9entry.opt.name).bind
        (fun pc => pc.cache_params) ∧
    c9entry.opt.enforce_hbm =
      (lookupConstraint c9cons c9entry.opt.name).bind
        (fun pc => pc.enforce_hbm) ∧
    c9entry.opt.stochastic_rounding =
      (lookupConstraint c9cons c9entry.opt.name).bind
        (fun pc => pc.stochastic_rounding) ∧
    c9entry.opt.bounds_check_mode =
      (lookupConstraint c9cons c9entry.opt.name).bind
        (fun pc => pc.bounds_check_mode) ∧
    c9entry.opt.is_weighted =
      (lookupConstraint c9cons c9entry.opt.name).bind
        (fun pc => pc.is_weighted) ∧
    c9entry.opt.feature_names =
      (lookupConstraint c9cons c9entry.opt.name).bind
        (fun pc => pc.feature_names)) ∧
    c9entry.opt.enforce_hbm = some true ∧
    c9entry.opt.cache_params = some { algorithm := some .LFU } ∧
    c9entry.opt.feature_names = some ["feature_0"] ∧
    c9entry.opt.stochastic_rounding = none :=
  ⟨c9_constraint_propagation topoT 512 15 c3tables [twRwSharder] c9cons
      (planOf c9call) (by decide) c9entry (by decide),
    by decide, by decide, by decide, by decide⟩

/-- C10: `compute_mse` and `compute_rmse` are total - elementwise, wherever
the weighted sample count is zero the result is zero (the division is
guarded), and elsewhere the result is the quotient, respectively its square
root; the output length is the broadcast length of the inputs. -/
theorem c10_mse_rmse_total (es ws : List ℚ) (i : Nat)
    (h1 : i < es.length) (h2 : i < ws.length) :
    (compute_mse es ws).length = min es.length ws.length ∧
    (compute_rmse es ws).length = min es.length ws.length ∧
    (ws.getD i 1 = 0 →
      (compute_mse es ws).getD i 1 = 0 ∧
      (compute_rmse es ws).getD i 1 = 0) ∧
    (ws.getD i 1 ≠ 0 →
      (compute_mse es ws).getD i 1 = es.getD i 0 / ws.getD i 1 ∧
      (compute_rmse es ws).getD i 1 =
        Real.sqrt ((es.getD i 0 : ℝ) / (ws.getD i 1 : ℝ))) := by
  have hm : (compute_mse es ws).getD i 1 =
      if ws.getD i 1 = 0 then 0 else es.getD i 0 / ws.getD i 1 :=
    getD_zipWith (fun e w => if w = 0 then 0 else e / w) es ws i 1 0 1 h1 h2
  have hr : (compute_rmse es ws).getD i 1 =
      if ws.getD i 1 = 0 then (0 : ℝ)
      else Real.sqrt ((es.getD i 0 : ℝ) / ((ws.getD i 1 : ℚ) : ℝ)) :=
    getD_zipWith (fun (e w : ℚ) => if w = 0 then (0 : ℝ)
      else Real.sqrt ((e : ℝ) / (w : ℝ))) es ws i 1 0 1 h1 h2
  refine ⟨?_, ?_, fun h0 => ?_, fun h0 => ?_⟩
  · rw [show compute_mse es ws = List.zipWith
      (fun e w => if w = 0 then 0 else e / w) es ws from rfl,
      List.length_zipWith]
  · rw [show compute_rmse es ws = List.zipWith
      (fun (e w : ℚ) => if w = 0 then (0 : ℝ)
        else Real.sqrt ((e : ℝ) / (w : ℝ))) es ws from rfl,
      List.length_zipWith]
  · rw [hm, if_pos h0, hr, if_pos h0]
    exact ⟨rfl, rfl⟩
  · rw [hm, if_neg h0, hr, if_neg h0]
    exact ⟨rfl, rfl⟩

/-- Witness for C10: with error sums `[8, 5]` and weighted sample counts
`[2, 0]`, the first slot divides and the second slot is guarded to zero for
both metrics. -/
theorem c10_mse_rmse_total_witness :
    ((compute_mse mseEs mseWs).getD 0 1 =
      mseEs.getD 0 0 / mseWs.getD 0 1) ∧
    ((compute_mse mseEs mseWs).getD 1 1 = 0 ∧
      (compute_rmse mseEs mseWs).getD 1 1 = 0) :=
  ⟨((c10_mse_rmse_total mseEs mseWs 0 (by decide) (by decide)).2.2.2
      (by decide)).1,
    (c10_mse_rmse_total mseEs mseWs 1 (by decide) (by decide)).2.2.1
      (by decide)⟩

end TorchrecModel
